import Mathlib

/-!
Shallow embedding of the interval-parsing and time-bucketed pivot
aggregation engine of the cca-db repository, translated from
src/clickhouse.py (class ClickHouseDBOps) and src/database_ops.py
(class DataBaseOps).  Timestamps are modelled as integer seconds;
strings are Lean strings restricted to the ASCII plane, matching the
inputs the code is exercised on (Python lower/strip and the regex
digit and whitespace classes agree with the ASCII model there).
-/

/-- Python exception model.  The code under analysis raises only
ValueError, but TypeError exists in the host language, so errors carry
their class as a constructor. -/
inductive PyErr where
  | valueError (msg : String)
  | typeError (msg : String)
deriving DecidableEq

deriving instance DecidableEq for Except

/-- ASCII whitespace: the characters removed by Python str.strip and
matched by the regex whitespace class on the ASCII plane. -/
def isWs (c : Char) : Bool :=
  c == ' ' || c == '\t' || c == '\n' || c == '\r' || c == '\x0b' || c == '\x0c'

/-- Python str.strip: drop whitespace from both ends. -/
def pstrip (cs : List Char) : List Char :=
  ((cs.dropWhile isWs).reverse.dropWhile isWs).reverse

/-- Python int() on a run of decimal digits. -/
def digitsToNat (ds : List Char) : Nat :=
  ds.foldl (fun a c => a * 10 + (c.toNat - 48)) 0

/-- The unit alternatives of the regex in parse_interval, in source order:
m|min|minute|minutes|h|hour|hours|d|day|days. -/
def unitTokens : List String :=
  ["m", "min", "minute", "minutes", "h", "hour", "hours", "d", "day", "days"]

/-- Case-insensitive match of the remaining characters against one whole
unit token (the regex alternation is end-anchored, so the unit must cover
the rest of the string exactly); returns the lowercased token, which is
what match.group(2).lower() yields. -/
def matchUnit (cs : List Char) : Option String :=
  unitTokens.find? (fun t => t.data == cs.map Char.toLower)

/-- The regex stage of parse_interval on the stripped character list:
an optional digit run (regex group 1) optionally followed by whitespace,
then a unit token ending the string.  Since no unit token begins with a
digit or whitespace, the maximal digit run and maximal whitespace run of
the backtracking regex are exactly takeWhile/dropWhile. -/
def parse_parts (cs : List Char) : Option (Nat × String) :=
  let ds := cs.takeWhile Char.isDigit
  let unitPart := if ds.isEmpty then cs else (cs.dropWhile Char.isDigit).dropWhile isWs
  (matchUnit unitPart).map (fun u => (if ds.isEmpty then 1 else digitsToNat ds, u))

/-- ClickHouseDBOps.parse_interval (src/clickhouse.py lines 539-562) on a
string argument: strip, match the interval regex, default the value to 1,
and map the lowercased unit token to MINUTE/HOUR/DAY by its first letter.
The final unsupported-unit branch of the source is kept verbatim even
though every token starts with m, h or d. -/
def parse_interval (interval_str : String) : Except PyErr (Nat × String) :=
  match parse_parts (pstrip interval_str.data) with
  | none => .error (.valueError ("Invalid interval format: " ++ interval_str))
  | some (v, u) =>
    if u.data.head? == some 'm' then .ok (v, "MINUTE")
    else if u.data.head? == some 'h' then .ok (v, "HOUR")
    else if u.data.head? == some 'd' then .ok (v, "DAY")
    else .error (.valueError ("Unsupported interval unit: " ++ u))

/-- Dynamically typed argument to parse_interval, for the
isinstance(interval_str, str) guard. -/
inductive PyVal where
  | pstr (s : String)
  | pint (n : Int)
  | pbool (b : Bool)
  | pnone
deriving DecidableEq

/-- Whether a Python value is a str. -/
def PyVal.isStr : PyVal → Bool
  | .pstr _ => true
  | _ => false

/-- Python type name, used in the TypeMismatch message text. -/
def pyTypeName : PyVal → String
  | .pstr _ => "str"
  | .pint _ => "int"
  | .pbool _ => "bool"
  | .pnone => "NoneType"

/-- parse_interval on an arbitrary Python value: the isinstance guard
raises ValueError (not TypeError) for non-strings, then the string path
runs the regex. -/
def parse_interval_py (v : PyVal) : Except PyErr (Nat × String) :=
  match v with
  | .pstr s => parse_interval s
  | w => .error (.valueError ("Interval must be a string, got <class " ++ pyTypeName w ++ ">"))

lemma parse_parts_unit_mem (cs : List Char) (v : Nat) (u : String)
    (h : parse_parts cs = some (v, u)) : u ∈ unitTokens := by
  simp only [parse_parts] at h
  rw [Option.map_eq_some'] at h
  obtain ⟨u1, hm, hpair⟩ := h
  obtain rfl : u1 = u := congrArg Prod.snd hpair
  unfold matchUnit at hm
  exact List.mem_of_find?_eq_some hm

lemma token_head (u : String) (h : u ∈ unitTokens) :
    u.data.head? = some 'm' ∨ u.data.head? = some 'h' ∨ u.data.head? = some 'd' := by
  simp only [unitTokens, List.mem_cons, List.not_mem_nil, or_false] at h
  rcases h with rfl | rfl | rfl | rfl | rfl | rfl | rfl | rfl | rfl | rfl <;> decide

/-- C3: parse_interval implements the stated grammar exactly: 5m, 10min,
4h, 2d parse to their (value, unit) pairs, a bare unit d defaults the
value to 1, the example mismatches (the empty string, the unsupported
unit 5x, trailing garbage 5 days extra) fail with the InvalidFormat
ValueError, and in general every string the grammar does not match fails
with exactly the InvalidFormat ValueError, while errors arise only that
way (the unsupported-unit branch is unreachable). -/
theorem parse_interval_grammar_examples :
    parse_interval "5m" = .ok (5, "MINUTE")
    ∧ parse_interval "10min" = .ok (10, "MINUTE")
    ∧ parse_interval "4h" = .ok (4, "HOUR")
    ∧ parse_interval "2d" = .ok (2, "DAY")
    ∧ parse_interval "d" = .ok (1, "DAY")
    ∧ parse_interval "" = .error (.valueError "Invalid interval format: ")
    ∧ parse_interval "5x" = .error (.valueError "Invalid interval format: 5x")
    ∧ parse_interval "5 days extra" =
        .error (.valueError "Invalid interval format: 5 days extra")
    ∧ (∀ s : String, parse_parts (pstrip s.data) = none →
        parse_interval s = .error (.valueError ("Invalid interval format: " ++ s)))
    ∧ (∀ (s : String) (e : PyErr), parse_interval s = .error e →
        parse_parts (pstrip s.data) = none
        ∧ e = .valueError ("Invalid interval format: " ++ s)) := by
  refine ⟨by decide, by decide, by decide, by decide, by decide, by decide, by decide,
    by decide, ?_, ?_⟩
  · intro s hs
    unfold parse_interval
    rw [hs]
  · intro s e he
    unfold parse_interval at he
    cases hp : parse_parts (pstrip s.data) with
    | none =>
      rw [hp] at he
      exact ⟨rfl, (Except.error.inj he).symm⟩
    | some r =>
      obtain ⟨v0, u0⟩ := r
      rw [hp] at he
      exfalso
      rcases token_head u0 (parse_parts_unit_mem _ _ _ hp) with hh | hh | hh
      · simp [hh] at he
      · simp [hh, show ((some 'h' == some 'm') : Bool) = false from by decide] at he
      · simp [hh, show ((some 'd' == some 'm') : Bool) = false from by decide,
          show ((some 'd' == some 'h') : Bool) = false from by decide] at he

/-- C3 witness: the universal InvalidFormat clauses applied at the
concrete non-matching string 5x. -/
theorem parse_interval_grammar_examples_witness :
    parse_parts (pstrip ("5x" : String).data) = none
    ∧ parse_interval "5x" = .error (.valueError ("Invalid interval format: " ++ "5x")) :=
  ⟨by decide,
    parse_interval_grammar_examples.2.2.2.2.2.2.2.2.1 "5x" (by decide)⟩

lemma digit_not_ws (c : Char) (h : c.isDigit = true) : isWs c = false := by
  cases hw : isWs c
  · rfl
  · exfalso
    simp only [isWs, Bool.or_eq_true, beq_iff_eq] at hw
    rcases hw with ((((rfl | rfl) | rfl) | rfl) | rfl) | rfl <;>
      exact absurd h (by decide)

lemma ws_not_digit (c : Char) (h : isWs c = true) : c.isDigit = false := by
  cases hd : c.isDigit
  · rfl
  · rw [digit_not_ws c hd] at h
    exact absurd h (by simp)

lemma takeWhile_append_all (p : α → Bool) (l₁ l₂ : List α)
    (h₁ : ∀ a ∈ l₁, p a = true) (h₂ : ∀ c, l₂.head? = some c → p c = false) :
    (l₁ ++ l₂).takeWhile p = l₁ ∧ (l₁ ++ l₂).dropWhile p = l₂ := by
  induction l₁ with
  | nil =>
    cases l₂ with
    | nil => simp
    | cons c t =>
      have hc := h₂ c (by simp)
      simp [List.takeWhile, List.dropWhile, hc]
  | cons a l ih =>
    have ha := h₁ a (by simp)
    have ihh := ih (fun b hb => h₁ b (by simp [hb]))
    constructor
    · rw [List.cons_append, List.takeWhile_cons_of_pos ha, ihh.1]
    · rw [List.cons_append, List.dropWhile_cons_of_pos ha, ihh.2]

lemma dropWhile_head_not (p : α → Bool) (l : List α)
    (h : ∀ c, l.head? = some c → p c = false) : l.dropWhile p = l := by
  cases l with
  | nil => rfl
  | cons c t =>
    have hc := h c (by simp)
    simp [List.dropWhile, hc]

lemma pstrip_eq_self (cs : List Char)
    (h1 : ∀ c, cs.head? = some c → isWs c = false)
    (h2 : ∀ c, cs.getLast? = some c → isWs c = false) : pstrip cs = cs := by
  unfold pstrip
  rw [dropWhile_head_not isWs cs h1]
  rw [dropWhile_head_not isWs cs.reverse (by
    intro c hc
    rw [List.head?_reverse] at hc
    exact h2 c hc)]
  exact List.reverse_reverse cs

lemma takeWhile_head (p : α → Bool) (l : List α) (c : α) (t : List α)
    (h : l.takeWhile p = c :: t) : l.head? = some c ∧ p c = true := by
  cases l with
  | nil => simp [List.takeWhile] at h
  | cons a l' =>
    cases hp : p a <;> simp only [List.takeWhile, hp] at h
    · exact absurd h (by simp)
    · obtain ⟨rfl, -⟩ := List.cons.inj h
      exact ⟨rfl, hp⟩

lemma digitsToNat_ge_one (t : List Char) (a : Nat) (ha : 1 ≤ a) :
    1 ≤ t.foldl (fun a c => a * 10 + (c.toNat - 48)) a := by
  induction t generalizing a with
  | nil => exact ha
  | cons d t ih =>
    simp only [List.foldl_cons]
    exact ih _ (by omega)

lemma char_toNat_inj (a b : Char) (h : a.toNat = b.toNat) : a = b :=
  Char.ext (UInt32.toNat.inj h)

lemma digit_toNat_bounds (c : Char) (h : c.isDigit = true) :
    48 ≤ c.toNat ∧ c.toNat ≤ 57 := by
  simp only [Char.isDigit, ge_iff_le, Bool.and_eq_true, decide_eq_true_eq] at h
  obtain ⟨h1, h2⟩ := h
  rw [UInt32.le_def, BitVec.le_def] at h1 h2
  exact ⟨h1, h2⟩

/-- C8 counterexample: the string 0d is accepted by parse_interval with
value 0, so the invariant that every parser output has value at least 1
fails. -/
theorem parse_interval_accepts_zero :
    parse_interval "0d" = .ok (0, "DAY") ∧ (0 : Nat) < 1 := by
  decide

/-- C8 amended: an accepted interval string yields value at least 1
whenever its stripped form does not start with the digit 0; inputs with
an explicit zero numeral (such as 0d) are accepted with value 0, so the
unrestricted invariant fails. -/
theorem parse_interval_value_pos (s : String) (v : Nat) (u : String)
    (h : parse_interval s = .ok (v, u))
    (h0 : (pstrip s.data).head? ≠ some '0') : 1 ≤ v := by
  unfold parse_interval at h
  cases hp : parse_parts (pstrip s.data) with
  | none => rw [hp] at h; exact absurd h (by simp)
  | some r =>
    obtain ⟨v0, u0⟩ := r
    rw [hp] at h
    have hv : v = v0 := by
      by_cases h1 : u0.data.head? == some 'm'
      · simp [h1] at h; exact h.1.symm
      · by_cases h2 : u0.data.head? == some 'h'
        · simp [h1, h2] at h; exact h.1.symm
        · by_cases h3 : u0.data.head? == some 'd'
          · simp [h1, h2, h3] at h; exact h.1.symm
          · simp [h1, h2, h3] at h
    subst hv
    simp only [parse_parts] at hp
    rw [Option.map_eq_some'] at hp
    obtain ⟨u1, hm, hpair⟩ := hp
    have hval : (if (List.takeWhile Char.isDigit (pstrip s.data)).isEmpty = true
        then 1
        else digitsToNat (List.takeWhile Char.isDigit (pstrip s.data))) = v :=
      congrArg Prod.fst hpair
    cases hds : List.takeWhile Char.isDigit (pstrip s.data) with
    | nil => rw [hds] at hval; simp at hval; omega
    | cons c t =>
      rw [hds] at hval
      simp only [List.isEmpty_cons, Bool.false_eq_true, if_false] at hval
      obtain ⟨hhead, hdig⟩ := takeWhile_head Char.isDigit (pstrip s.data) c t hds
      have hne : c ≠ '0' := by
        intro hc
        rw [hc] at hhead
        exact h0 hhead
      have hb := digit_toNat_bounds c hdig
      have hc48 : c.toNat ≠ 48 := by
        intro hc
        exact hne (char_toNat_inj c '0' (by rw [hc]; rfl))
      rw [← hval]
      unfold digitsToNat
      simp only [List.foldl_cons]
      exact digitsToNat_ge_one t _ (by omega)

/-- C8 witness: at the concrete accepted input 5m the amended bound
yields a value of at least 1. -/
theorem parse_interval_value_pos_witness :
    parse_interval "5m" = .ok (5, "MINUTE") ∧ (1 : Nat) ≤ 5 :=
  ⟨by decide, parse_interval_value_pos "5m" 5 "MINUTE" (by decide) (by decide)⟩

/-- C9: every failure of parse_interval is a ValueError: the non-string
guard and the grammar mismatch raise the same exception class and differ
only in message text, so a caller cannot distinguish them by type. -/
theorem parse_interval_error_class (v : PyVal) (s : String)
    (hv : v.isStr = false) :
    (∃ m, parse_interval_py v = .error (.valueError m))
    ∧ (∀ e, parse_interval s = .error e → ∃ m, e = .valueError m) := by
  constructor
  · cases v with
    | pstr t => simp [PyVal.isStr] at hv
    | pint n => exact ⟨_, rfl⟩
    | pbool b => exact ⟨_, rfl⟩
    | pnone => exact ⟨_, rfl⟩
  · intro e he
    unfold parse_interval at he
    cases hp : parse_parts (pstrip s.data) with
    | none =>
      rw [hp] at he
      exact ⟨_, (Except.error.inj he).symm⟩
    | some r =>
      obtain ⟨v0, u0⟩ := r
      rw [hp] at he
      by_cases h1 : u0.data.head? == some 'm'
      · simp [h1] at he
      · by_cases h2 : u0.data.head? == some 'h'
        · simp [h1, h2] at he
        · by_cases h3 : u0.data.head? == some 'd'
          · simp [h1, h2, h3] at he
          · simp only [h1, h2, h3, if_false, Bool.false_eq_true] at he
            exact ⟨_, (Except.error.inj he).symm⟩

/-- C9 witness: a non-string argument and the mismatching string 5x both
fail with the ValueError class. -/
theorem parse_interval_error_class_witness :
    PyVal.isStr (.pint 5) = false
    ∧ ((∃ m, parse_interval_py (.pint 5) = .error (.valueError m))
      ∧ (∀ e, parse_interval "5x" = .error e → ∃ m, e = .valueError m)) :=
  ⟨by decide, parse_interval_error_class (.pint 5) "5x" (by decide)⟩

/-- First character exists and is neither a digit nor whitespace. -/
def headNotDigitWs (l : List Char) : Bool :=
  match l with
  | [] => false
  | c :: _ => !c.isDigit && !isWs c

/-- Last character exists and is not whitespace. -/
def lastNotWs (l : List Char) : Bool :=
  match l.getLast? with
  | none => false
  | some c => !isWs c

lemma parse_concat_ws (ds ws tok : List Char)
    (hd : ds ≠ []) (hds : ∀ c ∈ ds, c.isDigit = true)
    (hws : ∀ c ∈ ws, isWs c = true)
    (hh : headNotDigitWs tok = true) (hl : lastNotWs tok = true) :
    parse_parts (pstrip (ds ++ (ws ++ tok))) =
      (matchUnit tok).map (fun u0 => (digitsToNat ds, u0))
    ∧ parse_parts (pstrip (ds ++ tok)) =
      (matchUnit tok).map (fun u0 => (digitsToNat ds, u0)) := by
  obtain ⟨c0, t0, rfl⟩ : ∃ c0 t0, tok = c0 :: t0 := by
    cases tok with
    | nil => simp [headNotDigitWs] at hh
    | cons c t => exact ⟨c, t, rfl⟩
  have hc0 : c0.isDigit = false ∧ isWs c0 = false := by
    simp only [headNotDigitWs, Bool.and_eq_true, Bool.not_eq_true'] at hh
    exact hh
  have hlast : ∀ c, (c0 :: t0).getLast? = some c → isWs c = false := by
    intro c hc
    unfold lastNotWs at hl
    rw [hc] at hl
    simpa using hl
  obtain ⟨d0, ds0, rfl⟩ : ∃ d0 ds0, ds = d0 :: ds0 := by
    cases ds with
    | nil => exact absurd rfl hd
    | cons d t => exact ⟨d, t, rfl⟩
  have hd0 : d0.isDigit = true := hds d0 (by simp)
  have htoknn : (c0 :: t0) ≠ ([] : List Char) := by simp
  -- head of the whitespace-then-token block is never a digit
  have hnd : ∀ c, (ws ++ c0 :: t0).head? = some c → c.isDigit = false := by
    cases ws with
    | nil =>
      intro c hc
      simp only [List.nil_append, List.head?_cons, Option.some.injEq] at hc
      rw [← hc]
      exact hc0.1
    | cons w ws' =>
      intro c hc
      simp only [List.cons_append, List.head?_cons, Option.some.injEq] at hc
      rw [← hc]
      exact ws_not_digit w (hws w (by simp))
  have hntok : ∀ c, (c0 :: t0).head? = some c → c.isDigit = false := by
    intro c hc
    simp only [List.head?_cons, Option.some.injEq] at hc
    rw [← hc]
    exact hc0.1
  have hwtok : ∀ c, (c0 :: t0).head? = some c → isWs c = false := by
    intro c hc
    simp only [List.head?_cons, Option.some.injEq] at hc
    rw [← hc]
    exact hc0.2
  -- strip is the identity on both concatenations
  have hps1 : pstrip ((d0 :: ds0) ++ (ws ++ c0 :: t0)) = (d0 :: ds0) ++ (ws ++ c0 :: t0) := by
    apply pstrip_eq_self
    · intro c hc
      simp only [List.cons_append, List.head?_cons, Option.some.injEq] at hc
      rw [← hc]
      exact digit_not_ws d0 hd0
    · intro c hc
      rw [List.getLast?_append_of_ne_nil _ (by simp [htoknn]),
        List.getLast?_append_of_ne_nil _ htoknn] at hc
      exact hlast c hc
  have hps2 : pstrip ((d0 :: ds0) ++ (c0 :: t0)) = (d0 :: ds0) ++ (c0 :: t0) := by
    apply pstrip_eq_self
    · intro c hc
      simp only [List.cons_append, List.head?_cons, Option.some.injEq] at hc
      rw [← hc]
      exact digit_not_ws d0 hd0
    · intro c hc
      rw [List.getLast?_append_of_ne_nil _ htoknn] at hc
      exact hlast c hc
  have hsplit1 := takeWhile_append_all Char.isDigit (d0 :: ds0) (ws ++ c0 :: t0) hds hnd
  have hsplit2 := takeWhile_append_all isWs ws (c0 :: t0) hws hwtok
  have hsplit3 := takeWhile_append_all Char.isDigit (d0 :: ds0) (c0 :: t0) hds hntok
  have hdroptok : (c0 :: t0).dropWhile isWs = c0 :: t0 :=
    dropWhile_head_not isWs _ hwtok
  constructor
  · rw [hps1]
    simp only [parse_parts, hsplit1.1, hsplit1.2, hsplit2.2, List.isEmpty_cons,
      Bool.false_eq_true, if_false]
  · rw [hps2]
    simp only [parse_parts, hsplit3.1, hsplit3.2, hdroptok, List.isEmpty_cons,
      Bool.false_eq_true, if_false]

/-- C10: for a digit run, any run of whitespace, and a grammar unit token,
parse_interval of the spaced form (digits, whitespace, unit) returns the
same result as the unspaced form: the regex permits internal whitespace
between the number and the unit. -/
theorem parse_interval_inner_whitespace (ds ws : List Char) (u : String)
    (hd : ds ≠ []) (hds : ∀ c ∈ ds, c.isDigit = true)
    (hu : u ∈ unitTokens) (hws : ∀ c ∈ ws, isWs c = true) :
    parse_interval (String.mk (ds ++ (ws ++ u.data))) =
      parse_interval (String.mk (ds ++ u.data)) := by
  simp only [unitTokens, List.mem_cons, List.not_mem_nil, or_false] at hu
  have key : parse_parts (pstrip (ds ++ (ws ++ u.data))) =
        (matchUnit u.data).map (fun u0 => (digitsToNat ds, u0))
      ∧ parse_parts (pstrip (ds ++ u.data)) =
        (matchUnit u.data).map (fun u0 => (digitsToNat ds, u0)) := by
    apply parse_concat_ws ds ws u.data hd hds hws
    · rcases hu with rfl | rfl | rfl | rfl | rfl | rfl | rfl | rfl | rfl | rfl <;> decide
    · rcases hu with rfl | rfl | rfl | rfl | rfl | rfl | rfl | rfl | rfl | rfl <;> decide
  have hmu : matchUnit u.data = some u := by
    rcases hu with rfl | rfl | rfl | rfl | rfl | rfl | rfl | rfl | rfl | rfl <;> decide
  unfold parse_interval
  have hdata : ∀ l : List Char, (String.mk l).data = l := fun _ => rfl
  rw [hdata, hdata, key.1, key.2, hmu]
  rfl

/-- C10 witness: the spaced form 5 m parses exactly like 5m. -/
theorem parse_interval_inner_whitespace_witness :
    (['5'] ≠ ([] : List Char))
    ∧ parse_interval (String.mk (['5'] ++ ([' '] ++ "m".data))) =
        parse_interval (String.mk (['5'] ++ "m".data)) :=
  ⟨by decide,
    parse_interval_inner_whitespace ['5'] [' '] "m" (by decide) (by decide)
      (by decide) (by decide)⟩

/-!
Data model of the new-schema ClickHouse table (src/clickhouse.py).  A row
carries its created_at timestamp (integer seconds), its location_id, the
array-typed columns (name to list of tags, e.g. categories), and the
JSON-dict columns (name to a mapping category to subcategory list, e.g.
category_subcategory_dict).  The SQL JSONExtract pipeline reads that
mapping; the JSON quoting of the raw extracted values is a representation
detail of the external engine and is not modelled.
-/

structure Row where
  created_at : Int
  location_id : Int
  arrays : List (String × List String)
  jsons : List (String × List (String × List String))
deriving DecidableEq

/-- Value of an array column of a row (empty when absent). -/
def getArrayCol (r : Row) (c : String) : List String :=
  ((r.arrays.find? (fun p => p.1 == c)).map (fun p => p.2)).getD []

/-- Value of a JSON-dict column of a row (empty when absent). -/
def getJsonCol (r : Row) (c : String) : List (String × List String) :=
  ((r.jsons.find? (fun p => p.1 == c)).map (fun p => p.2)).getD []

/-- The WHERE clause of every extraction query: created_at in the
half-open window, plus the optional location_id equality filter. -/
def rowPred (s e : Int) (loc : Option Int) (r : Row) : Bool :=
  decide (s ≤ r.created_at) && decide (r.created_at < e) &&
    (match loc with
     | some l => r.location_id == l
     | none => true)

/-- Seconds per interval unit as named by parse_interval. -/
def unitSeconds (u : String) : Int :=
  if u == "MINUTE" then 60 else if u == "HOUR" then 3600 else 86400

/-- toStartOfInterval(created_at, INTERVAL v u): truncate the timestamp
down to the start of its epoch-aligned bucket of v units. -/
def bucketOf (v : Nat) (u : String) (t : Int) : Int :=
  t - t % ((v : Int) * unitSeconds u)

/-- One flat count row of a grouped aggregation result:
(time bucket, dimension key, count). -/
structure CRow (K : Type) where
  bucket : Int
  key : K
  cnt : Nat
deriving DecidableEq

/-- arrayJoin(column) under the window/location filter: one
(bucket, tag) pair per tag per matching source row. -/
def explodeArray (table : List Row) (col : String) (s e : Int)
    (loc : Option Int) (v : Nat) (u : String) : List (Int × String) :=
  (table.filter (rowPred s e loc)).flatMap
    (fun r => (getArrayCol r col).map (fun tag => (bucketOf v u r.created_at, tag)))

/-- The JSONExtract pipeline of the subcategory queries: every
(category, subcategory) pair of the JSON-dict column of every matching
source row, tagged with the row's bucket. -/
def explodeKV (table : List Row) (col : String) (s e : Int)
    (loc : Option Int) (v : Nat) (u : String) : List (Int × (String × String)) :=
  (table.filter (rowPred s e loc)).flatMap
    (fun r => (getJsonCol r col).flatMap
      (fun p => p.2.map (fun sub => (bucketOf v u r.created_at, (p.1, sub)))))

/-- GROUP BY (time_group, key) with count(): one output row per distinct
(bucket, key) pair carrying the number of its occurrences. -/
def groupPairs {K : Type} [DecidableEq K] (l : List (Int × K)) : List (CRow K) :=
  l.dedup.map (fun p => ⟨p.1, p.2, l.count p⟩)

/-- The pivoted DataFrame: ascending bucket columns and one row per key,
each row listing its (bucket, cell) pairs in column order. -/
structure PivotT (K : Type) where
  cols : List Int
  entries : List (K × List (Int × Nat))
deriving DecidableEq

/-- Cell aggregation of pandas pivot_table on SQL-grouped input: the flat
rows reaching the pivot step carry at most one row per (key, bucket) pair
(the query groups by exactly that pair), so the aggregated cell is that
row's count, and fill_value gives 0 for absent combinations. -/
def cellOf {K : Type} [DecidableEq K] (rows : List (CRow K)) (k : K) (b : Int) : Nat :=
  match rows.find? (fun r => r.key == k && r.bucket == b) with
  | some r => r.cnt
  | none => 0

/-- pivot_table + reindex(sorted(columns)): columns are the ascending
distinct buckets of the input rows, row keys the distinct dimension
values (pandas sorts group keys), cells from cellOf. -/
def buildPivot {K : Type} [DecidableEq K] (r : K → K → Prop) [DecidableRel r]
    (rows : List (CRow K)) : PivotT K :=
  let cols := List.insertionSort (· ≤ ·) (rows.map (fun cr => cr.bucket)).dedup
  let keys := List.insertionSort r (rows.map (fun cr => cr.key)).dedup
  ⟨cols, keys.map (fun k => (k, cols.map (fun b => (b, cellOf rows k b))))⟩

/-- Look a cell up in a pivot table (0 outside the table). -/
def PivotT.cellAt {K : Type} [DecidableEq K] (p : PivotT K) (k : K) (b : Int) : Nat :=
  match p.entries.find? (fun en => en.1 == k) with
  | some en =>
    match en.2.find? (fun cb => cb.1 == b) with
    | some cb => cb.2
    | none => 0
  | none => 0

/-- Total count of the flat rows matching a (key, bucket) combination. -/
def sumCounts {K : Type} [DecidableEq K] (rows : List (CRow K)) (k : K) (b : Int) : Nat :=
  ((rows.filter (fun r => r.key == k && r.bucket == b)).map (fun r => r.cnt)).sum

/-- Lexicographic character-list comparison (the sort order of the pandas
string index; row order is not part of the pivot contract). -/
def charListLe : List Char → List Char → Bool
  | [], _ => true
  | _ :: _, [] => false
  | a :: as, b :: bs => if a = b then charListLe as bs else decide (a.toNat < b.toNat)

/-- Row order of the pandas index for single-key pivots. -/
def strOrd (a b : String) : Prop := charListLe a.data b.data = true

instance : DecidableRel strOrd := fun _ _ => inferInstanceAs (Decidable (_ = true))

/-- Row order of the pandas index for (category, subcategory) pivots. -/
def pairOrd (a b : String × String) : Prop :=
  (if a.1 = b.1 then charListLe a.2.data b.2.data
   else charListLe a.1.data b.1.data) = true

instance : DecidableRel pairOrd := fun _ _ => inferInstanceAs (Decidable (_ = true))

/-- ClickHouseDBOps.get_counts_pivot (src/clickhouse.py lines 346-380):
parse the freq, run the grouped arrayJoin count query, return the bare
no-data DataFrame on an empty result, else the zero-filled pivot. -/
def ChOps.get_counts_pivot (table : List Row) (column : String)
    (start_date end_date : Int) (freq : String) (loc_id : Option Int) :
    Except PyErr (Option (PivotT String)) :=
  match parse_interval freq with
  | .error e => .error e
  | .ok (v, u) =>
    let rows := groupPairs (explodeArray table column start_date end_date loc_id v u)
    if rows.isEmpty then .ok none else .ok (some (buildPivot strOrd rows))

/-- ClickHouseDBOps.get_subcategory_counts_pivot (src/clickhouse.py lines
382-431): as get_counts_pivot but over the (category, subcategory) pairs
of the JSON-dict column. -/
def ChOps.get_subcategory_counts_pivot (table : List Row) (column : String)
    (start_date end_date : Int) (freq : String) (loc_id : Option Int) :
    Except PyErr (Option (PivotT (String × String))) :=
  match parse_interval freq with
  | .error e => .error e
  | .ok (v, u) =>
    let rows := groupPairs (explodeKV table column start_date end_date loc_id v u)
    if rows.isEmpty then .ok none else .ok (some (buildPivot pairOrd rows))

/-- ClickHouseDBOps.get_row_counts_per_timestep (src/clickhouse.py lines
487-514): grouped row count per bucket, returned as the flat ordered
(time_group, row_count) DataFrame. -/
def ChOps.get_row_counts_per_timestep (table : List Row)
    (start_date end_date : Int) (freq : String) (loc_id : Option Int) :
    Except PyErr (List (Int × Nat)) :=
  match parse_interval freq with
  | .error e => .error e
  | .ok (v, u) =>
    let bs := (table.filter (rowPred start_date end_date loc_id)).map
      (fun r => bucketOf v u r.created_at)
    .ok ((List.insertionSort (· ≤ ·) bs.dedup).map (fun b => (b, bs.count b)))

lemma groupPairs_map_pairs {K : Type} [DecidableEq K] (l : List (Int × K)) :
    (groupPairs l).map (fun r => (r.bucket, r.key)) = l.dedup := by
  unfold groupPairs
  rw [List.map_map]
  exact List.map_id _

lemma groupPairs_pairs_nodup {K : Type} [DecidableEq K] (l : List (Int × K)) :
    ((groupPairs l).map (fun r => (r.bucket, r.key))).Nodup := by
  rw [groupPairs_map_pairs]
  exact l.nodup_dedup

lemma cellOf_eq_sum {K : Type} [DecidableEq K] (rows : List (CRow K))
    (hnd : (rows.map (fun r => (r.bucket, r.key))).Nodup) (k : K) (b : Int) :
    cellOf rows k b = sumCounts rows k b := by
  induction rows with
  | nil => rfl
  | cons r rs ih =>
    rw [List.map_cons, List.nodup_cons] at hnd
    obtain ⟨hnotin, hnd2⟩ := hnd
    cases hm : (r.key == k && r.bucket == b) with
    | true =>
      have hm2 := hm
      simp only [Bool.and_eq_true, beq_iff_eq] at hm2
      obtain ⟨hk, hb⟩ := hm2
      have hfilter : rs.filter (fun x => x.key == k && x.bucket == b) = [] := by
        rw [List.filter_eq_nil_iff]
        intro x hx hpx
        simp only [Bool.and_eq_true, beq_iff_eq] at hpx
        apply hnotin
        have hxp : (x.bucket, x.key) ∈ rs.map (fun r => (r.bucket, r.key)) :=
          List.mem_map_of_mem _ hx
        rw [hpx.1, hpx.2] at hxp
        rw [hk, hb]
        exact hxp
      have hfind : List.find? (fun x => x.key == k && x.bucket == b) (r :: rs) = some r :=
        List.find?_cons_of_pos rs hm
      have hfc : List.filter (fun x => x.key == k && x.bucket == b) (r :: rs) =
          r :: List.filter (fun x => x.key == k && x.bucket == b) rs :=
        List.filter_cons_of_pos hm
      simp only [cellOf, sumCounts, hfind, hfc, hfilter]
      simp
    | false =>
      have hm2 : ¬ (r.key == k && r.bucket == b) = true := by simp [hm]
      have hfind : List.find? (fun x => x.key == k && x.bucket == b) (r :: rs) =
          List.find? (fun x => x.key == k && x.bucket == b) rs :=
        List.find?_cons_of_neg rs hm2
      have hfc : List.filter (fun x => x.key == k && x.bucket == b) (r :: rs) =
          List.filter (fun x => x.key == k && x.bucket == b) rs :=
        List.filter_cons_of_neg hm2
      simp only [cellOf, sumCounts, hfind, hfc]
      exact ih hnd2

lemma find?_label {K β : Type} [DecidableEq K] (ks : List K) (g : K → β) (k : K) :
    List.find? (fun en => en.1 == k) (ks.map (fun k0 => (k0, g k0))) =
      (ks.find? (fun k0 => k0 == k)).map (fun k0 => (k0, g k0)) := by
  rw [List.find?_map]
  rfl

lemma find?_self_of_mem {K : Type} [DecidableEq K] (ks : List K) (k : K) (h : k ∈ ks) :
    ks.find? (fun k0 => k0 == k) = some k := by
  induction ks with
  | nil => simp at h
  | cons a t ih =>
    by_cases ha : a = k
    · subst ha
      rw [List.find?_cons_of_pos _ (by simp)]
    · rw [List.find?_cons_of_neg _ (by simp [ha])]
      rcases List.mem_cons.mp h with h1 | h1
      · exact absurd h1.symm ha
      · exact ih h1

lemma find?_none_of_not_mem {K : Type} [DecidableEq K] (ks : List K) (k : K) (h : k ∉ ks) :
    ks.find? (fun k0 => k0 == k) = none := by
  rw [List.find?_eq_none]
  intro x hx hbx
  simp only [beq_iff_eq] at hbx
  exact h (hbx ▸ hx)

lemma cellOf_eq_zero_of_no_bucket {K : Type} [DecidableEq K] (rows : List (CRow K))
    (k : K) (b : Int) (h : ∀ cr ∈ rows, cr.bucket ≠ b) : cellOf rows k b = 0 := by
  have hf : rows.find? (fun r => r.key == k && r.bucket == b) = none := by
    rw [List.find?_eq_none]
    intro x hx hpx
    simp only [Bool.and_eq_true, beq_iff_eq] at hpx
    exact h x hx hpx.2
  simp only [cellOf, hf]

lemma cellOf_eq_zero_of_no_key {K : Type} [DecidableEq K] (rows : List (CRow K))
    (k : K) (b : Int) (h : ∀ cr ∈ rows, cr.key ≠ k) : cellOf rows k b = 0 := by
  have hf : rows.find? (fun r => r.key == k && r.bucket == b) = none := by
    rw [List.find?_eq_none]
    intro x hx hpx
    simp only [Bool.and_eq_true, beq_iff_eq] at hpx
    exact h x hx hpx.1
  simp only [cellOf, hf]

lemma cellAt_buildPivot {K : Type} [DecidableEq K] (r : K → K → Prop) [DecidableRel r]
    (rows : List (CRow K)) (k : K) (b : Int) :
    (buildPivot r rows).cellAt k b = cellOf rows k b := by
  simp only [buildPivot, PivotT.cellAt]
  rw [find?_label]
  by_cases hk : k ∈ List.insertionSort r (rows.map (fun cr => cr.key)).dedup
  · rw [find?_self_of_mem _ _ hk]
    simp only [Option.map]
    rw [find?_label]
    by_cases hb : b ∈ List.insertionSort (fun a b => a ≤ b)
        (rows.map (fun cr => cr.bucket)).dedup
    · rw [find?_self_of_mem _ _ hb]
      rfl
    · rw [find?_none_of_not_mem _ _ hb]
      have hnob : ∀ cr ∈ rows, cr.bucket ≠ b := by
        intro cr hcr hcb
        apply hb
        rw [List.mem_insertionSort, List.mem_dedup]
        exact hcb ▸ List.mem_map_of_mem _ hcr
      rw [cellOf_eq_zero_of_no_bucket rows k b hnob]
      rfl
  · rw [find?_none_of_not_mem _ _ hk]
    have hnok : ∀ cr ∈ rows, cr.key ≠ k := by
      intro cr hcr hck
      apply hk
      rw [List.mem_insertionSort, List.mem_dedup]
      exact hck ▸ List.mem_map_of_mem _ hcr
    rw [cellOf_eq_zero_of_no_key rows k b hnok]
    rfl

lemma buildPivot_cols_spec {K : Type} [DecidableEq K] (r : K → K → Prop) [DecidableRel r]
    (rows : List (CRow K)) :
    List.Sorted (· ≤ ·) (buildPivot r rows).cols
    ∧ (buildPivot r rows).cols.Nodup
    ∧ ∀ b, b ∈ (buildPivot r rows).cols ↔ ∃ cr ∈ rows, cr.bucket = b := by
  refine ⟨List.sorted_insertionSort _ _, ?_, ?_⟩
  · exact (List.perm_insertionSort _ _).nodup_iff.mpr
      (rows.map (fun cr => cr.bucket)).nodup_dedup
  · intro b
    show b ∈ List.insertionSort (· ≤ ·) (rows.map (fun cr => cr.bucket)).dedup ↔ _
    rw [List.mem_insertionSort, List.mem_dedup, List.mem_map]

lemma buildPivot_cellAt_sum {K : Type} [DecidableEq K] (r : K → K → Prop) [DecidableRel r]
    (l : List (Int × K)) (k : K) (b : Int) :
    (buildPivot r (groupPairs l)).cellAt k b = sumCounts (groupPairs l) k b :=
  (cellAt_buildPivot r (groupPairs l) k b).trans
    (cellOf_eq_sum (groupPairs l) (groupPairs_pairs_nodup l) k b)

/-- C1: for every table and window, the flat count rows produced by the
grouped extraction query pivot to a table whose column set is exactly the
ascending sorted set of distinct bucket values present in the rows, and
whose every cell is the summed count of the rows matching its
(row key, bucket) combination, 0 when no row matches; this holds for the
array pivot of get_counts_pivot and the (category, subcategory) pivot of
get_subcategory_counts_pivot, each operation returning that pivot (or the
explicit no-data DataFrame when the query result is empty). -/
theorem counts_pivot_columns_cells (table : List Row) (column : String)
    (s e : Int) (freq : String) (loc : Option Int) (v : Nat) (u : String)
    (hf : parse_interval freq = .ok (v, u)) :
    (let rows := groupPairs (explodeArray table column s e loc v u)
     let p := buildPivot strOrd rows
     ChOps.get_counts_pivot table column s e freq loc =
        .ok (if rows.isEmpty then none else some p)
     ∧ List.Sorted (· ≤ ·) p.cols ∧ p.cols.Nodup
     ∧ (∀ b, b ∈ p.cols ↔ ∃ cr ∈ rows, cr.bucket = b)
     ∧ (∀ k b, p.cellAt k b = sumCounts rows k b))
    ∧ (let rows := groupPairs (explodeKV table column s e loc v u)
       let p := buildPivot pairOrd rows
       ChOps.get_subcategory_counts_pivot table column s e freq loc =
          .ok (if rows.isEmpty then none else some p)
       ∧ List.Sorted (· ≤ ·) p.cols ∧ p.cols.Nodup
       ∧ (∀ b, b ∈ p.cols ↔ ∃ cr ∈ rows, cr.bucket = b)
       ∧ (∀ k b, p.cellAt k b = sumCounts rows k b)) := by
  dsimp only
  constructor
  · refine ⟨?_, (buildPivot_cols_spec strOrd _).1, (buildPivot_cols_spec strOrd _).2.1,
      (buildPivot_cols_spec strOrd _).2.2, fun k b => buildPivot_cellAt_sum strOrd _ k b⟩
    by_cases hre : (groupPairs (explodeArray table column s e loc v u)).isEmpty
    · simp [ChOps.get_counts_pivot, hf, hre]
    · simp [ChOps.get_counts_pivot, hf, hre]
  · refine ⟨?_, (buildPivot_cols_spec pairOrd _).1, (buildPivot_cols_spec pairOrd _).2.1,
      (buildPivot_cols_spec pairOrd _).2.2, fun k b => buildPivot_cellAt_sum pairOrd _ k b⟩
    by_cases hre : (groupPairs (explodeKV table column s e loc v u)).isEmpty
    · simp [ChOps.get_subcategory_counts_pivot, hf, hre]
    · simp [ChOps.get_subcategory_counts_pivot, hf, hre]

/-- Concrete table of the C1 round-trip example: three rows tagged catA
and two tagged catB in the first day bucket, one tagged catA in the
second. -/
def tableC1 : List Row :=
  [⟨100, 1, [("tags", ["catA"])], []⟩,
   ⟨100, 1, [("tags", ["catA"])], []⟩,
   ⟨100, 1, [("tags", ["catA"])], []⟩,
   ⟨200, 1, [("tags", ["catB"])], []⟩,
   ⟨200, 1, [("tags", ["catB"])], []⟩,
   ⟨86500, 1, [("tags", ["catA"])], []⟩]

/-- C1 witness: on the concrete example the pivot is catA T1 3, T2 1 and
catB T1 2, T2 0 (zero-filled), with columns the two observed day buckets,
and the general theorem applies at this input. -/
theorem counts_pivot_columns_cells_witness :
    parse_interval "d" = Except.ok (1, "DAY")
    ∧ buildPivot strOrd (groupPairs (explodeArray tableC1 "tags" 0 200000 none 1 "DAY")) =
        ⟨[0, 86400], [("catA", [(0, 3), (86400, 1)]), ("catB", [(0, 2), (86400, 0)])]⟩
    ∧ ((let rows := groupPairs (explodeArray tableC1 "tags" 0 200000 none 1 "DAY")
        let p := buildPivot strOrd rows
        ChOps.get_counts_pivot tableC1 "tags" 0 200000 "d" none =
           .ok (if rows.isEmpty then none else some p)
        ∧ List.Sorted (· ≤ ·) p.cols ∧ p.cols.Nodup
        ∧ (∀ b, b ∈ p.cols ↔ ∃ cr ∈ rows, cr.bucket = b)
        ∧ (∀ k b, p.cellAt k b = sumCounts rows k b))
      ∧ (let rows := groupPairs (explodeKV tableC1 "tags" 0 200000 none 1 "DAY")
         let p := buildPivot pairOrd rows
         ChOps.get_subcategory_counts_pivot tableC1 "tags" 0 200000 "d" none =
            .ok (if rows.isEmpty then none else some p)
         ∧ List.Sorted (· ≤ ·) p.cols ∧ p.cols.Nodup
         ∧ (∀ b, b ∈ p.cols ↔ ∃ cr ∈ rows, cr.bucket = b)
         ∧ (∀ k b, p.cellAt k b = sumCounts rows k b))) :=
  ⟨by decide, by decide,
    counts_pivot_columns_cells tableC1 "tags" 0 200000 "d" none 1 "DAY" (by decide)⟩

/-- The from_time_before argument of counts_per_timestep: an interval
string, or a legacy integer treated as that many days. -/
inductive TSpec where
  | str (s : String)
  | int (n : Int)
deriving DecidableEq

/-- The backward-compatibility conversion at the top of
counts_per_timestep: an int n becomes the string nd. -/
def specString : TSpec → String
  | .str s => s
  | .int n => toString n ++ "d"

/-- The window resolution of ClickHouseDBOps.counts_per_timestep
(src/clickhouse.py lines 441-456): end is now, start is now minus the
parsed interval, branching on the unit name; the final unsupported-unit
raise is kept although the parser never emits another unit. -/
def ChOps.resolve_window (spec : TSpec) (now : Int) : Except PyErr (Int × Int) :=
  match parse_interval (specString spec) with
  | .error er => .error er
  | .ok (value, u) =>
    if u == "MINUTE" then .ok (now - (value : Int) * 60, now)
    else if u == "HOUR" then .ok (now - (value : Int) * 3600, now)
    else if u == "DAY" then .ok (now - (value : Int) * 86400, now)
    else .error (.valueError ("Unsupported time unit: " ++ u))

/-- Modelled from the spec: duration maps MINUTE/HOUR/DAY to the
corresponding fixed-length delta (no calendar-aware arithmetic). -/
def durationSpec (v : Nat) (u : String) : Int :=
  (v : Int) * (if u = "MINUTE" then 60 else if u = "HOUR" then 3600
    else if u = "DAY" then 86400 else 0)

lemma parse_interval_unit_cases (s : String) (v : Nat) (u : String)
    (h : parse_interval s = .ok (v, u)) :
    u = "MINUTE" ∨ u = "HOUR" ∨ u = "DAY" := by
  unfold parse_interval at h
  cases hp : parse_parts (pstrip s.data) with
  | none => rw [hp] at h; exact absurd h (by simp)
  | some r =>
    obtain ⟨v0, u0⟩ := r
    rw [hp] at h
    by_cases h1 : u0.data.head? == some 'm'
    · simp [h1] at h
      exact Or.inl h.2.symm
    · by_cases h2 : u0.data.head? == some 'h'
      · simp [h1, h2] at h
        exact Or.inr (Or.inl h.2.symm)
      · by_cases h3 : u0.data.head? == some 'd'
        · simp [h1, h2, h3] at h
          exact Or.inr (Or.inr h.2.symm)
        · simp [h1, h2, h3] at h

/-- C4: for every valid interval spec (string, or legacy int treated as
nd) and no explicit end, the resolved window of counts_per_timestep has
end equal to now and extent equal to the fixed-length duration of the
parsed interval. -/
theorem counts_per_timestep_window (spec : TSpec) (now : Int) (v : Nat) (u : String)
    (h : parse_interval (specString spec) = .ok (v, u)) :
    ∃ s, ChOps.resolve_window spec now = .ok (s, now) ∧ now - s = durationSpec v u := by
  rcases parse_interval_unit_cases _ _ _ h with rfl | rfl | rfl
  · refine ⟨now - (v : Int) * 60, ?_, ?_⟩
    · simp [ChOps.resolve_window, h]
    · simp [durationSpec]
  · refine ⟨now - (v : Int) * 3600, ?_, ?_⟩
    · simp [ChOps.resolve_window, h]
    · simp [durationSpec]
  · refine ⟨now - (v : Int) * 86400, ?_, ?_⟩
    · simp [ChOps.resolve_window, h]
    · simp [durationSpec]

/-- C4 witness: the legacy integer 10 resolves to a ten-day window ending
at the given clock reading. -/
theorem counts_per_timestep_window_witness :
    parse_interval (specString (.int 10)) = Except.ok (10, "DAY")
    ∧ ∃ s, ChOps.resolve_window (.int 10) 1000000 = .ok (s, 1000000)
        ∧ 1000000 - s = durationSpec 10 "DAY" :=
  ⟨by decide, counts_per_timestep_window (.int 10) 1000000 10 "DAY" (by decide)⟩

/-- One value of the result dict of counts_per_timestep: a row-count
DataFrame, a category pivot, or a (category, subcategory) pivot (each
pivot possibly the explicit no-data DataFrame). -/
inductive ChVal where
  | rowCounts (l : List (Int × Nat))
  | catPivot (p : Option (PivotT String))
  | subPivot (p : Option (PivotT (String × String)))
deriving DecidableEq

/-- The col_aliases mapping of counts_per_timestep (src/clickhouse.py
lines 461-468) with the dict-get fallback to the name itself. -/
def col_aliases (c : String) : String :=
  if c == "category" then "categories"
  else if c == "categories" then "categories"
  else if c == "subcategory" then "subcategories"
  else if c == "subcategories" then "subcategories"
  else if c == "all" then "all"
  else c

/-- Python dict assignment d[k] = v on an insertion-ordered dict
represented as an association list: overwrite in place when the key
exists, else append. -/
def dinsert {V : Type} (d : List (String × V)) (k : String) (v : V) :
    List (String × V) :=
  if d.any (fun p => p.1 == k) then
    d.map (fun p => if p.1 == k then (k, v) else p)
  else d ++ [(k, v)]

/-- The dimension dispatch of the loop body of counts_per_timestep
(src/clickhouse.py lines 470-481): all goes to the row-count query,
subcategories to the JSON-dict pivot over category_subcategory_dict,
categories to the array pivot over the categories column, and any other
name is passed through as an array column. -/
def chDimValue (table : List Row) (s e : Int) (freq : String) (loc : Option Int)
    (column : String) : Except PyErr ChVal :=
  let mapped := col_aliases column
  if mapped == "all" then
    (ChOps.get_row_counts_per_timestep table s e freq loc).map ChVal.rowCounts
  else if mapped == "subcategories" then
    (ChOps.get_subcategory_counts_pivot table "category_subcategory_dict" s e freq loc).map
      ChVal.subPivot
  else if mapped == "categories" then
    (ChOps.get_counts_pivot table "categories" s e freq loc).map ChVal.catPivot
  else
    (ChOps.get_counts_pivot table mapped s e freq loc).map ChVal.catPivot

/-- The for-loop of counts_per_timestep.  The second accumulator
component counts the extractor calls issued so far: each loop iteration
issues exactly one query through the execution collaborator. -/
def chLoop (table : List Row) (s e : Int) (freq : String) (loc : Option Int) :
    List (String × Option ChVal) × Nat → List String →
    Except PyErr (List (String × Option ChVal) × Nat)
  | acc, [] => .ok acc
  | acc, c :: cs =>
    match chDimValue table s e freq loc c with
    | .error er => .error er
    | .ok val => chLoop table s e freq loc (dinsert acc.1 c (some val), acc.2 + 1) cs

/-- ClickHouseDBOps.counts_per_timestep (src/clickhouse.py lines
435-485): resolve the window once, pre-seed the dict with the requested
names mapped to None, then fill one entry per requested dimension. -/
def ChOps.counts_per_timestep (table : List Row) (columns : List String)
    (from_time_before : TSpec) (freq : String) (loc : Option Int) (now : Int) :
    Except PyErr (List (String × Option ChVal) × Nat) :=
  match ChOps.resolve_window from_time_before now with
  | .error er => .error er
  | .ok (s, e) =>
    chLoop table s e freq loc
      (columns.foldl (fun d c => dinsert d c none) [], 0) columns

lemma dinsert_map_fst {V : Type} (d : List (String × V)) (k : String) (v : V) :
    (dinsert d k v).map Prod.fst =
      if k ∈ d.map Prod.fst then d.map Prod.fst else d.map Prod.fst ++ [k] := by
  unfold dinsert
  by_cases hmem : k ∈ d.map Prod.fst
  · have hany : d.any (fun p => p.1 == k) = true := by
      rw [List.any_eq_true]
      obtain ⟨p, hp, hpk⟩ := List.mem_map.mp hmem
      exact ⟨p, hp, by simp [hpk]⟩
    rw [if_pos hany, if_pos hmem, List.map_map]
    apply List.map_congr_left
    intro p hp
    by_cases hpk : p.1 = k
    · simp [Function.comp, hpk]
    · simp [Function.comp, hpk]
  · have hany : ¬ d.any (fun p => p.1 == k) = true := by
      rw [List.any_eq_true]
      rintro ⟨p, hp, hpk⟩
      simp only [beq_iff_eq] at hpk
      exact hmem (List.mem_map.mpr ⟨p, hp, hpk⟩)
    rw [if_neg hany, if_neg hmem, List.map_append]
    rfl

lemma mem_dinsert_self {V : Type} (d : List (String × V)) (k : String) (v : V) :
    (k, v) ∈ dinsert d k v := by
  unfold dinsert
  by_cases hany : d.any (fun p => p.1 == k) = true
  · rw [if_pos hany]
    rw [List.any_eq_true] at hany
    obtain ⟨p, hp, hpk⟩ := hany
    exact List.mem_map.mpr ⟨p, hp, by simp [hpk]⟩
  · rw [if_neg hany]
    exact List.mem_append_right _ (by simp)

lemma mem_dinsert_of_ne {V : Type} (d : List (String × V)) (k k' : String) (v v' : V)
    (h : (k', v') ∈ d) (hne : k' ≠ k) : (k', v') ∈ dinsert d k v := by
  unfold dinsert
  by_cases hany : d.any (fun p => p.1 == k) = true
  · rw [if_pos hany]
    exact List.mem_map.mpr ⟨(k', v'), h, by simp [hne]⟩
  · rw [if_neg hany]
    exact List.mem_append_left _ h

lemma foldl_dinsert_keys (columns : List String) :
    ∀ d0 : List (String × Option ChVal), (d0.map Prod.fst).Nodup →
    ((columns.foldl (fun d c => dinsert d c none) d0).map Prod.fst).Nodup
    ∧ ∀ c, c ∈ (columns.foldl (fun d c => dinsert d c none) d0).map Prod.fst ↔
        (c ∈ d0.map Prod.fst ∨ c ∈ columns) := by
  induction columns with
  | nil =>
    intro d0 h
    exact ⟨h, by simp⟩
  | cons a cs ih =>
    intro d0 h
    have hnd : ((dinsert d0 a none).map Prod.fst).Nodup := by
      rw [dinsert_map_fst]
      by_cases hmem : a ∈ d0.map Prod.fst
      · rwa [if_pos hmem]
      · rw [if_neg hmem]
        simp [List.nodup_append, h, hmem]
    obtain ⟨ih1, ih2⟩ := ih (dinsert d0 a none) hnd
    rw [List.foldl_cons]
    refine ⟨ih1, fun c => ?_⟩
    rw [ih2 c, dinsert_map_fst]
    by_cases hmem : a ∈ d0.map Prod.fst
    · rw [if_pos hmem]
      constructor
      · rintro (hc | hc)
        · exact Or.inl hc
        · exact Or.inr (List.mem_cons_of_mem _ hc)
      · rintro (hc | hc)
        · exact Or.inl hc
        · rcases List.mem_cons.mp hc with rfl | hc2
          · exact Or.inl hmem
          · exact Or.inr hc2
    · rw [if_neg hmem]
      simp only [List.mem_append, List.mem_singleton, List.mem_cons]
      tauto

lemma chLoop_spec (table : List Row) (s e : Int) (freq : String) (loc : Option Int) :
    ∀ (cs : List String) (acc res : List (String × Option ChVal) × Nat),
    (∀ c ∈ cs, c ∈ acc.1.map Prod.fst) →
    chLoop table s e freq loc acc cs = .ok res →
    res.1.map Prod.fst = acc.1.map Prod.fst
    ∧ res.2 = acc.2 + cs.length
    ∧ (∀ c val, chDimValue table s e freq loc c = .ok val →
        (c, some val) ∈ acc.1 → (c, some val) ∈ res.1)
    ∧ (∀ c ∈ cs, ∃ val, chDimValue table s e freq loc c = .ok val
        ∧ (c, some val) ∈ res.1) := by
  intro cs
  induction cs with
  | nil =>
    intro acc res hsub h
    simp only [chLoop] at h
    obtain rfl := Except.ok.inj h
    exact ⟨rfl, by simp, fun c val _ hmem => hmem, by simp⟩
  | cons a cs ih =>
    intro acc res hsub h
    simp only [chLoop] at h
    cases hdv : chDimValue table s e freq loc a with
    | error er =>
      rw [hdv] at h
      simp at h
    | ok val =>
      rw [hdv] at h
      have hsub2 : ∀ c ∈ cs, c ∈ (dinsert acc.1 a (some val)).map Prod.fst := by
        intro c hc
        rw [dinsert_map_fst]
        by_cases hmem : a ∈ acc.1.map Prod.fst
        · rw [if_pos hmem]
          exact hsub c (by simp [hc])
        · rw [if_neg hmem]
          exact List.mem_append_left _ (hsub c (by simp [hc]))
      obtain ⟨hk, hq, hpres, hall⟩ := ih (dinsert acc.1 a (some val), acc.2 + 1) res hsub2 h
      have hkeys : (dinsert acc.1 a (some val)).map Prod.fst = acc.1.map Prod.fst := by
        rw [dinsert_map_fst, if_pos (hsub a (by simp))]
      refine ⟨hk.trans hkeys, by rw [hq]; simp; omega, ?_, ?_⟩
      · intro c val2 hdv2 hmem
        apply hpres c val2 hdv2
        by_cases hca : c = a
        · subst hca
          rw [hdv] at hdv2
          obtain rfl := Except.ok.inj hdv2
          exact mem_dinsert_self _ _ _
        · exact mem_dinsert_of_ne _ _ _ _ _ hmem hca
      · intro c hc
        rcases List.mem_cons.mp hc with rfl | hc2
        · exact ⟨val, hdv, hpres c val hdv (mem_dinsert_self _ _ _)⟩
        · exact hall c hc2

/-- C2 (amended): for the ClickHouse facade counts_per_timestep, every
successful call returns a mapping with exactly one entry per distinct
originally requested dimension name (keys are the caller's aliases, each
mapped to the value the resolved extractor produced for it), issues one
extractor query per requested name, and an empty request yields the empty
mapping with no queries issued. -/
theorem counts_per_timestep_alias_keys (table : List Row) (columns : List String)
    (spec : TSpec) (freq : String) (loc : Option Int) (now : Int)
    (res : List (String × Option ChVal) × Nat)
    (h : ChOps.counts_per_timestep table columns spec freq loc now = .ok res) :
    (res.1.map Prod.fst).Nodup
    ∧ (∀ c, c ∈ res.1.map Prod.fst ↔ c ∈ columns)
    ∧ (∃ s e, ChOps.resolve_window spec now = .ok (s, e)
        ∧ ∀ c ∈ columns, ∃ val, chDimValue table s e freq loc c = .ok val
            ∧ (c, some val) ∈ res.1)
    ∧ res.2 = columns.length
    ∧ (columns = [] → res = ([], 0)) := by
  unfold ChOps.counts_per_timestep at h
  cases hrw : ChOps.resolve_window spec now with
  | error er =>
    rw [hrw] at h
    simp at h
  | ok se =>
    obtain ⟨s, e⟩ := se
    rw [hrw] at h
    have hinit := foldl_dinsert_keys columns [] (by simp)
    have hsub : ∀ c ∈ columns,
        c ∈ ((columns.foldl (fun d c => dinsert d c none)
          ([] : List (String × Option ChVal))).map Prod.fst) := by
      intro c hc
      exact (hinit.2 c).mpr (Or.inr hc)
    obtain ⟨hk, hq, -, hall⟩ := chLoop_spec table s e freq loc columns _ res hsub h
    refine ⟨?_, ?_, ⟨s, e, rfl, fun c hc => hall c hc⟩, ?_, ?_⟩
    · rw [hk]
      exact hinit.1
    · intro c
      rw [hk, hinit.2 c]
      simp
    · rw [hq]
      simp
    · intro hcol
      subst hcol
      simp only [List.foldl_nil, chLoop] at h
      exact (Except.ok.inj h).symm

/-- C2 witness: a concrete successful facade call (empty table, aliases
category and all) satisfying the key/value/query-count contract. -/
theorem counts_per_timestep_alias_keys_witness :
    ChOps.counts_per_timestep [] ["category", "all"] (.str "2d") "h" none 200000 =
      .ok ([("category", some (ChVal.catPivot none)),
            ("all", some (ChVal.rowCounts []))], 2)
    ∧ ((([("category", some (ChVal.catPivot none)),
          ("all", some (ChVal.rowCounts []))], 2) :
            List (String × Option ChVal) × Nat).1.map Prod.fst).Nodup
    ∧ (∀ c, c ∈ (([("category", some (ChVal.catPivot none)),
          ("all", some (ChVal.rowCounts []))], 2) :
            List (String × Option ChVal) × Nat).1.map Prod.fst ↔
        c ∈ ["category", "all"])
    ∧ (∃ s e, ChOps.resolve_window (.str "2d") 200000 = .ok (s, e)
        ∧ ∀ c ∈ ["category", "all"], ∃ val, chDimValue [] s e "h" none c = .ok val
            ∧ (c, some val) ∈ (([("category", some (ChVal.catPivot none)),
                ("all", some (ChVal.rowCounts []))], 2) :
                  List (String × Option ChVal) × Nat).1)
    ∧ (([("category", some (ChVal.catPivot none)),
          ("all", some (ChVal.rowCounts []))], 2) :
            List (String × Option ChVal) × Nat).2 = (["category", "all"]).length
    ∧ ((["category", "all"] : List String) = [] →
        (([("category", some (ChVal.catPivot none)),
          ("all", some (ChVal.rowCounts []))], 2) :
            List (String × Option ChVal) × Nat) = ([], 0)) := by
  refine ⟨by decide, ?_⟩
  exact counts_per_timestep_alias_keys [] ["category", "all"] (.str "2d") "h" none 200000
    ([("category", some (ChVal.catPivot none)), ("all", some (ChVal.rowCounts []))], 2)
    (by decide)

/-!
Data model of the legacy-schema table of DataBaseOps
(src/database_ops.py).  A row carries created_at, loc_id, and the
JSON-object columns (category, campaign, service), each mapping a key to
a JSON value that may be an array, an object (whose keys are the
subcategories), or a scalar.
-/

/-- A JSON value sitting under a key of a legacy JSON-object column. -/
inductive JVal where
  | arr (xs : List String)
  | obj (ks : List String)
  | scalar (s : String)
deriving DecidableEq

structure DbRow where
  created_at : Int
  loc_id : Int
  cols : List (String × List (String × JVal))
deriving DecidableEq

/-- Value of a JSON-object column of a legacy row (empty when absent). -/
def getDbCol (r : DbRow) (c : String) : List (String × JVal) :=
  ((r.cols.find? (fun p => p.1 == c)).map (fun p => p.2)).getD []

/-- The WHERE clause of the legacy queries: half-open window plus the
optional loc_id equality filter. -/
def dbRowPred (s e : Int) (loc : Option Int) (r : DbRow) : Bool :=
  decide (s ≤ r.created_at) && decide (r.created_at < e) &&
    (match loc with
     | some l => r.loc_id == l
     | none => true)

/-- DataBaseOps granularity selection (src/database_ops.py lines 91-92,
125, 211): INTERVAL 1 HOUR when freq is the string H, otherwise
INTERVAL 1 DAY — every other freq silently falls back to one-day
buckets. -/
def dbBucket (freq : String) (t : Int) : Int :=
  t - t % (if freq == "H" then 3600 else 86400)

/-- DataBaseOps.get_counts_pivot (src/database_ops.py lines 91-122):
arrayJoin(JSONExtractKeys(column)) grouped by (bucket, key), pivoted
without any empty-result guard. -/
def DbOps.get_counts_pivot (table : List DbRow) (column : String)
    (s e : Int) (freq : String) (loc : Option Int) : PivotT String :=
  buildPivot strOrd (groupPairs
    ((table.filter (dbRowPred s e loc)).flatMap
      (fun r => (getDbCol r column).map
        (fun p => (dbBucket freq r.created_at, p.1)))))

/-- The CASE expression of the legacy subcategory query: an array value
yields its elements, an object value its keys, and a scalar the key
itself. -/
def dbKvPairs (kvs : List (String × JVal)) : List (String × String) :=
  kvs.flatMap (fun p =>
    match p.2 with
    | .arr xs => xs.map (fun x => (p.1, x))
    | .obj ks => ks.map (fun x => (p.1, x))
    | .scalar _ => [(p.1, p.1)])

/-- DataBaseOps.get_subcategory_counts_pivot (src/database_ops.py lines
124-172): (category, subcategory) pairs of the JSON column grouped per
bucket and pivoted, again with no empty-result guard. -/
def DbOps.get_subcategory_counts_pivot (table : List DbRow) (column : String)
    (s e : Int) (freq : String) (loc : Option Int) : PivotT (String × String) :=
  buildPivot pairOrd (groupPairs
    ((table.filter (dbRowPred s e loc)).flatMap
      (fun r => (dbKvPairs (getDbCol r column)).map
        (fun kv => (dbBucket freq r.created_at, kv)))))

/-- DataBaseOps.get_row_counts_per_timestep (src/database_ops.py lines
210-237): grouped row counts per bucket, ordered ascending. -/
def DbOps.get_row_counts_per_timestep (table : List DbRow)
    (s e : Int) (freq : String) (loc : Option Int) : List (Int × Nat) :=
  let bs := (table.filter (dbRowPred s e loc)).map (fun r => dbBucket freq r.created_at)
  (List.insertionSort (· ≤ ·) bs.dedup).map (fun b => (b, bs.count b))

/-- One value of the legacy result dict. -/
inductive DbVal where
  | rowCounts (l : List (Int × Nat))
  | catPivot (p : PivotT String)
  | subPivot (p : PivotT (String × String))
deriving DecidableEq

/-- DataBaseOps.counts_per_timestep (src/database_ops.py lines 176-208):
the result dict is pre-seeded with the five fixed keys all, category,
subcategory, campaign and service mapped to None, then one entry per
requested column is written over it (subcategory reads the category
column; everything else is a keys pivot over its own column). -/
def DbOps.counts_per_timestep (table : List DbRow) (columns : List String)
    (from_days_before : Int) (freq : String) (loc : Option Int) (now : Int) :
    List (String × Option DbVal) :=
  let e := now
  let s := now - from_days_before * 86400
  columns.foldl
    (fun d column =>
      dinsert d column (some
        (if column == "all" then
          DbVal.rowCounts (DbOps.get_row_counts_per_timestep table s e freq loc)
        else if column == "subcategory" then
          DbVal.subPivot (DbOps.get_subcategory_counts_pivot table "category" s e freq loc)
        else
          DbVal.catPivot (DbOps.get_counts_pivot table column s e freq loc))))
    [("all", none), ("category", none), ("subcategory", none),
     ("campaign", none), ("service", none)]

/-- C2 counterexample: the legacy DataBaseOps facade pre-seeds five fixed
keys, so an empty request returns a five-entry mapping of None values,
not the empty mapping the claim requires. -/
theorem db_counts_per_timestep_empty_request :
    DbOps.counts_per_timestep [] [] 8 "D" none 0 =
      [("all", none), ("category", none), ("subcategory", none),
       ("campaign", none), ("service", none)]
    ∧ DbOps.counts_per_timestep [] [] 8 "D" none 0 ≠ [] := by
  constructor
  · rfl
  · decide

/-- C7 counterexample: the legacy DataBaseOps row-count extraction with
the unsupported granularity w returns a normal day-bucketed result —
identical to the result for D — instead of surfacing an error: the
fallback is silent. -/
theorem db_row_counts_w_silent_fallback :
    DbOps.get_row_counts_per_timestep
        [⟨30, 1, []⟩, ⟨90000, 1, []⟩] 0 200000 "w" none = [(0, 1), (86400, 1)]
    ∧ DbOps.get_row_counts_per_timestep
        [⟨30, 1, []⟩, ⟨90000, 1, []⟩] 0 200000 "w" none =
      DbOps.get_row_counts_per_timestep
        [⟨30, 1, []⟩, ⟨90000, 1, []⟩] 0 200000 "D" none := by
  constructor
  · decide
  · rfl

/-- C7 (amended): the ClickHouse extraction operations surface the
interval-parse ValueError immediately for every freq outside the grammar
(such as w), issuing no query; the legacy DataBaseOps operations instead
map H to HOUR and silently treat every other freq, w included, as DAY. -/
theorem ch_ops_invalid_freq_error (table : List Row) (column : String)
    (s e : Int) (freq : String) (loc : Option Int) (er : PyErr)
    (h : parse_interval freq = .error er) :
    ChOps.get_counts_pivot table column s e freq loc = .error er
    ∧ ChOps.get_subcategory_counts_pivot table column s e freq loc = .error er
    ∧ ChOps.get_row_counts_per_timestep table s e freq loc = .error er
    ∧ parse_interval "w" = .error (.valueError "Invalid interval format: w") := by
  refine ⟨?_, ?_, ?_, by decide⟩
  · simp [ChOps.get_counts_pivot, h]
  · simp [ChOps.get_subcategory_counts_pivot, h]
  · simp [ChOps.get_row_counts_per_timestep, h]

/-- C7 witness: at the concrete granularity w all three ClickHouse
operations fail with the InvalidFormat ValueError. -/
theorem ch_ops_invalid_freq_error_witness :
    parse_interval "w" = .error (.valueError "Invalid interval format: w")
    ∧ (ChOps.get_counts_pivot [] "categories" 0 100 "w" none =
        .error (.valueError "Invalid interval format: w")
      ∧ ChOps.get_subcategory_counts_pivot [] "categories" 0 100 "w" none =
        .error (.valueError "Invalid interval format: w")
      ∧ ChOps.get_row_counts_per_timestep [] 0 100 "w" none =
        .error (.valueError "Invalid interval format: w")
      ∧ parse_interval "w" = .error (.valueError "Invalid interval format: w")) :=
  ⟨by decide,
    ch_ops_invalid_freq_error [] "categories" 0 100 "w" none
      (.valueError "Invalid interval format: w") (by decide)⟩

/-- C6: an empty query result (no rows inside the window) is not an
error: with a well-formed freq the ClickHouse operations return the
explicit no-data result (the empty row-count list for the row-count
query), and the legacy DataBaseOps operations return the empty pivot
table, never an exception. -/
theorem empty_window_empty_pivot (table : List Row) (dtable : List DbRow)
    (column dcolumn : String) (s e : Int) (freq : String) (loc : Option Int)
    (v : Nat) (u : String)
    (hf : parse_interval freq = .ok (v, u))
    (hempty : table.filter (rowPred s e loc) = [])
    (hdempty : dtable.filter (dbRowPred s e loc) = []) :
    ChOps.get_counts_pivot table column s e freq loc = .ok none
    ∧ ChOps.get_subcategory_counts_pivot table column s e freq loc = .ok none
    ∧ ChOps.get_row_counts_per_timestep table s e freq loc = .ok []
    ∧ DbOps.get_counts_pivot dtable dcolumn s e freq loc = ⟨[], []⟩
    ∧ DbOps.get_subcategory_counts_pivot dtable dcolumn s e freq loc = ⟨[], []⟩
    ∧ DbOps.get_row_counts_per_timestep dtable s e freq loc = [] := by
  refine ⟨?_, ?_, ?_, ?_, ?_, ?_⟩
  · simp [ChOps.get_counts_pivot, hf, explodeArray, hempty, groupPairs]
  · simp [ChOps.get_subcategory_counts_pivot, hf, explodeKV, hempty, groupPairs]
  · simp [ChOps.get_row_counts_per_timestep, hf, hempty]
  · simp [DbOps.get_counts_pivot, hdempty, groupPairs, buildPivot]
  · simp [DbOps.get_subcategory_counts_pivot, hdempty, groupPairs, buildPivot]
  · simp [DbOps.get_row_counts_per_timestep, hdempty]

/-- C6 witness: one row outside the window on each schema yields the
empty results without an exception. -/
theorem empty_window_empty_pivot_witness :
    parse_interval "h" = Except.ok (1, "HOUR")
    ∧ ([⟨500000, 1, [("tags", ["x"])], []⟩] : List Row).filter (rowPred 0 200000 none) = []
    ∧ ([⟨500000, 1, []⟩] : List DbRow).filter (dbRowPred 0 200000 none) = []
    ∧ (ChOps.get_counts_pivot [⟨500000, 1, [("tags", ["x"])], []⟩] "tags" 0 200000 "h" none = .ok none
      ∧ ChOps.get_subcategory_counts_pivot [⟨500000, 1, [("tags", ["x"])], []⟩] "tags" 0 200000 "h" none = .ok none
      ∧ ChOps.get_row_counts_per_timestep [⟨500000, 1, [("tags", ["x"])], []⟩] 0 200000 "h" none = .ok []
      ∧ DbOps.get_counts_pivot [⟨500000, 1, []⟩] "category" 0 200000 "h" none = ⟨[], []⟩
      ∧ DbOps.get_subcategory_counts_pivot [⟨500000, 1, []⟩] "category" 0 200000 "h" none = ⟨[], []⟩
      ∧ DbOps.get_row_counts_per_timestep [⟨500000, 1, []⟩] 0 200000 "h" none = []) :=
  ⟨by decide, by decide, by decide,
    empty_window_empty_pivot [⟨500000, 1, [("tags", ["x"])], []⟩] [⟨500000, 1, []⟩]
      "tags" "category" 0 200000 "h" none 1 "HOUR" (by decide) (by decide) (by decide)⟩

/-- C5: end-to-end: a table of 100 rows inside the four-day window and
spanning at most four distinct day buckets, requested through the facade
with interval spec 4d, granularity d and dimensions [all], yields for key
all the row-count result having one time column per day with at least one
row (hence at most 4), each column holding exactly that day's row count,
and the counts summing to 100. -/
theorem row_counts_end_to_end (table : List Row) (now : Int)
    (hwin : ∀ r ∈ table, now - 345600 ≤ r.created_at ∧ r.created_at < now)
    (hlen : table.length = 100)
    (hdays : ((table.map (fun r => bucketOf 1 "DAY" r.created_at)).dedup).length ≤ 4) :
    ∃ l, ChOps.counts_per_timestep table ["all"] (.str "4d") "d" none now =
        .ok ([("all", some (ChVal.rowCounts l))], 1)
      ∧ l.length ≤ 4
      ∧ (∀ b c, (b, c) ∈ l →
          c = (table.filter (fun r => bucketOf 1 "DAY" r.created_at == b)).length ∧ 1 ≤ c)
      ∧ (∀ b, (∃ c, (b, c) ∈ l) ↔ b ∈ table.map (fun r => bucketOf 1 "DAY" r.created_at))
      ∧ (l.map (fun bc => bc.2)).sum = 100 := by
  set bs := table.map (fun r => bucketOf 1 "DAY" r.created_at) with hbsdef
  have hfilt : table.filter (rowPred (now - 345600) now none) = table := by
    rw [List.filter_eq_self]
    intro r hr
    have h1 := (hwin r hr).1
    have h2 := (hwin r hr).2
    simp [rowPred, h1, h2]
  have hres : ChOps.resolve_window (.str "4d") now = .ok (now - 345600, now) := by
    unfold ChOps.resolve_window
    rw [show specString (.str "4d") = "4d" from rfl,
      show parse_interval "4d" = Except.ok (4, "DAY") from by decide]
    show Except.ok (now - ((4 : Nat) : Int) * 86400, now) = Except.ok (now - 345600, now)
    norm_num
  have hrow : ChOps.get_row_counts_per_timestep table (now - 345600) now "d" none =
      .ok ((List.insertionSort (· ≤ ·) bs.dedup).map (fun b => (b, bs.count b))) := by
    unfold ChOps.get_row_counts_per_timestep
    rw [show parse_interval "d" = Except.ok (1, "DAY") from by decide]
    show Except.ok ((List.insertionSort (· ≤ ·)
        ((table.filter (rowPred (now - 345600) now none)).map
          (fun r => bucketOf 1 "DAY" r.created_at)).dedup).map
        (fun b => (b, ((table.filter (rowPred (now - 345600) now none)).map
          (fun r => bucketOf 1 "DAY" r.created_at)).count b))) = _
    rw [hfilt]
  have hdim : chDimValue table (now - 345600) now "d" none "all" =
      .ok (ChVal.rowCounts
        ((List.insertionSort (· ≤ ·) bs.dedup).map (fun b => (b, bs.count b)))) := by
    unfold chDimValue
    show (ChOps.get_row_counts_per_timestep table (now - 345600) now "d" none).map
        ChVal.rowCounts = _
    rw [hrow]
    rfl
  have hfacade : ChOps.counts_per_timestep table ["all"] (.str "4d") "d" none now =
      .ok ([("all", some (ChVal.rowCounts
        ((List.insertionSort (· ≤ ·) bs.dedup).map (fun b => (b, bs.count b)))))], 1) := by
    unfold ChOps.counts_per_timestep
    rw [hres]
    show chLoop table (now - 345600) now "d" none ([("all", none)], 0) ["all"] = _
    simp only [chLoop]
    rw [hdim]
    rfl
  have hmem : ∀ b c,
      (b, c) ∈ (List.insertionSort (· ≤ ·) bs.dedup).map (fun b => (b, bs.count b)) →
      c = bs.count b ∧ b ∈ bs := by
    intro b c hbc
    obtain ⟨b0, hb0, heq⟩ := List.mem_map.mp hbc
    cases heq
    exact ⟨rfl, List.mem_dedup.mp ((List.mem_insertionSort _).mp hb0)⟩
  have hcnt : ∀ b : Int, bs.count b =
      (table.filter (fun r => bucketOf 1 "DAY" r.created_at == b)).length := by
    intro b
    rw [hbsdef, List.count_eq_countP, List.countP_map, List.countP_eq_length_filter]
    rfl
  refine ⟨(List.insertionSort (· ≤ ·) bs.dedup).map (fun b => (b, bs.count b)),
    hfacade, ?_, ?_, ?_, ?_⟩
  · rw [List.length_map, (List.perm_insertionSort _ _).length_eq]
    exact hdays
  · intro b c hbc
    obtain ⟨hc, hb⟩ := hmem b c hbc
    refine ⟨hc.trans (hcnt b), ?_⟩
    rw [hc]
    exact List.count_pos_iff.mpr hb
  · intro b
    constructor
    · rintro ⟨c, hc⟩
      exact (hmem b c hc).2
    · intro hb
      exact ⟨bs.count b,
        List.mem_map.mpr ⟨b, (List.mem_insertionSort _).mpr (List.mem_dedup.mpr hb), rfl⟩⟩
  · have e1 : ((List.insertionSort (· ≤ ·) bs.dedup).map
        (fun b => (b, bs.count b))).map (fun bc => bc.2) =
        (List.insertionSort (· ≤ ·) bs.dedup).map (fun b => bs.count b) := by
      rw [List.map_map]
      rfl
    rw [e1, ((List.perm_insertionSort _ _).map (fun b => bs.count b)).sum_eq,
      List.sum_map_count_dedup_eq_length, hbsdef, List.length_map]
    exact hlen

/-- Concrete table of the C5 scenario: 100 rows spread over four
consecutive days (40, 30, 20 and 10 rows per day). -/
def tableC5 : List Row :=
  List.replicate 40 ⟨100, 1, [], []⟩ ++ List.replicate 30 ⟨86500, 1, [], []⟩ ++
  List.replicate 20 ⟨172900, 1, [], []⟩ ++ List.replicate 10 ⟨259300, 1, [], []⟩

set_option maxRecDepth 100000 in
/-- C5 witness: the end-to-end theorem applies to the concrete 100-row
four-day table. -/
theorem row_counts_end_to_end_witness :
    (∀ r ∈ tableC5, 345600 - 345600 ≤ r.created_at ∧ r.created_at < 345600)
    ∧ tableC5.length = 100
    ∧ ((tableC5.map (fun r => bucketOf 1 "DAY" r.created_at)).dedup).length ≤ 4
    ∧ ∃ l, ChOps.counts_per_timestep tableC5 ["all"] (.str "4d") "d" none 345600 =
        .ok ([("all", some (ChVal.rowCounts l))], 1)
      ∧ l.length ≤ 4
      ∧ (∀ b c, (b, c) ∈ l →
          c = (tableC5.filter (fun r => bucketOf 1 "DAY" r.created_at == b)).length ∧ 1 ≤ c)
      ∧ (∀ b, (∃ c, (b, c) ∈ l) ↔ b ∈ tableC5.map (fun r => bucketOf 1 "DAY" r.created_at))
      ∧ (l.map (fun bc => bc.2)).sum = 100 :=
  ⟨by decide, by decide, by decide,
    row_counts_end_to_end tableC5 345600 (by decide) (by decide) (by decide)⟩
